import Mathlib

/-!
Shallow embedding of the unified-diff patch engine of
`src/frontend/src/utils/codeDiffProcessor.ts` (class `CodeDiffProcessor`),
together with theorems settling the frozen claims about it.

JavaScript strings are modelled as Lean `String`; `split('\n')`,
`join('\n')`, `trim()`, `startsWith`, `includes`, `charAt`/`substring`
are modelled by hand-rolled total functions over the underlying
character lists so that every definition is executable and
kernel-evaluable.  JS array mutation (`splice`) is modelled by explicit
take/drop surgery with the same index-clamping semantics.  Fallible
steps return `Except String _` mirroring the `{success, error?}`
result objects of the source.
-/

-- ===== string primitives modelling the JS operations used by the source =====

/-- Model of JS `split('\n')` at the character-list level:
splits on every newline; the empty list yields one empty segment. -/
def splitChars : List Char → List (List Char)
  | [] => [[]]
  | c :: cs =>
    if c = '\n' then [] :: splitChars cs
    else
      match splitChars cs with
      | [] => [[c]]
      | l :: ls => (c :: l) :: ls

/-- Model of JS `string.split('\n')`. -/
def splitLines (s : String) : List String :=
  (splitChars s.data).map String.mk

/-- Model of JS `array.join('\n')`. -/
def joinLines (ls : List String) : String :=
  String.mk (List.intercalate ['\n'] (ls.map String.data))

/-- The whitespace characters stripped by JS `trim()` (ASCII subset;
the source never manufactures non-ASCII whitespace). -/
def isWSChar (c : Char) : Bool :=
  c == ' ' || c == '\t' || c == '\n' || c == '\r' || c == '\x0b' || c == '\x0c'

/-- Model of JS `string.trim()`. -/
def trimStr (s : String) : String :=
  ⟨((s.data.dropWhile isWSChar).reverse.dropWhile isWSChar).reverse⟩

/-- Boolean list-prefix test (supports `startsWith`). -/
def isPrefixL : List Char → List Char → Bool
  | [], _ => true
  | _ :: _, [] => false
  | a :: as, b :: bs => a == b && isPrefixL as bs

/-- Model of JS `string.startsWith(pre)`. -/
def startsWithStr (s pre : String) : Bool :=
  isPrefixL pre.data s.data

/-- Boolean contiguous-sublist test (supports `includes`). -/
def hasSubList (sub : List Char) : List Char → Bool
  | [] => isPrefixL sub []
  | c :: cs => isPrefixL sub (c :: cs) || hasSubList sub cs

/-- Model of JS `big.includes(sub)`. -/
def containsStr (big sub : String) : Bool :=
  hasSubList sub.data big.data

-- ===== data model (interfaces DiffLine / DiffHunk / DiffResult) =====

/-- `DiffLine.type` values of the source. -/
inductive LineType where
  | context
  | remove
  | add
deriving DecidableEq, Repr

/-- Interface `DiffLine` (the optional informational `originalNumber`
field is never set nor read by the engine and is omitted). -/
structure DiffLine where
  type : LineType
  content : String
deriving DecidableEq, Repr

/-- Interface `DiffHunk`. -/
structure DiffHunk where
  oldStart : Nat
  oldLines : Nat
  newStart : Nat
  newLines : Nat
  lines : List DiffLine
deriving DecidableEq, Repr

/-- Interface `DiffResult`. -/
structure DiffResult where
  success : Bool
  newContent : Option String
  error : Option String
  appliedHunks : Nat
  totalHunks : Nat
  warnings : List String
deriving DecidableEq, Repr

/-- `MAX_CONTEXT_LINES` constant of the source. -/
def MAX_CONTEXT_LINES : Nat := 3

/-- `MAX_HUNK_SIZE` constant of the source. -/
def MAX_HUNK_SIZE : Nat := 100

-- ===== hunk header parsing (the regex in parseHunk) =====

/-- One-or-more JS `\s` characters (the `\s+` pieces of the header
regex); returns the remaining input or fails. -/
def wsPlus : List Char → Option (List Char)
  | [] => none
  | c :: cs => if isWSChar c then some (cs.dropWhile isWSChar) else none

/-- Digit-string value, as JS `parseInt` computes it on a digit run. -/
def digitsToNat (ds : List Char) : Nat :=
  ds.foldl (fun n c => n * 10 + (c.toNat - '0'.toNat)) 0

/-- One-or-more digits (the `(\d+)` groups); greedy, like the regex. -/
def digitsPlus (l : List Char) : Option (Nat × List Char) :=
  match l.takeWhile Char.isDigit with
  | [] => none
  | ds => some (digitsToNat ds, l.dropWhile Char.isDigit)

/-- The optional `(?:,(\d+))?` group: consumed only when a comma is
directly followed by digits, otherwise left untouched. -/
def optCommaDigits (l : List Char) : Option Nat × List Char :=
  match l with
  | ',' :: r =>
    match digitsPlus r with
    | some (k, r') => (some k, r')
    | none => (none, l)
  | _ => (none, l)

/-- Matcher for the hunk-header regex
`/^@@\s+-?(\d+)(?:,(\d+))?\s+\+?(\d+)(?:,(\d+))?\s+@@/` of
`parseHunk`, yielding the four captured groups. -/
def parseHunkHeader (l : List Char) : Option (Nat × Option Nat × Nat × Option Nat) :=
  match l with
  | '@' :: '@' :: r0 =>
    match wsPlus r0 with
    | none => none
    | some r1 =>
      let r1 := match r1 with
        | '-' :: r => r
        | r => r
      match digitsPlus r1 with
      | none => none
      | some (os, r2) =>
        let (olO, r3) := optCommaDigits r2
        match wsPlus r3 with
        | none => none
        | some r4 =>
          let r4 := match r4 with
            | '+' :: r => r
            | r => r
          match digitsPlus r4 with
          | none => none
          | some (ns, r5) =>
            let (nlO, r6) := optCommaDigits r5
            match wsPlus r6 with
            | none => none
            | some r7 =>
              match r7 with
              | '@' :: '@' :: _ => some (os, olO, ns, nlO)
              | _ => none
  | _ => none

-- ===== hunk body parsing =====

/-- A line at which the body loop of `parseHunk` breaks:
the next hunk header or a file-header line. -/
def isHunkBoundary (l : String) : Bool :=
  startsWithStr l "@@" || startsWithStr l "---" || startsWithStr l "+++"

/-- Line classification performed inside the body loop of `parseHunk`:
empty or unprefixed lines become verbatim context lines, otherwise the
first character is dispatched and stripped. -/
def classifyDiffLine (line : String) : DiffLine :=
  if line = "" ||
      (!startsWithStr line " " && !startsWithStr line "-" && !startsWithStr line "+") then
    ⟨.context, line⟩
  else
    match line.data with
    | ' ' :: rest => ⟨.context, ⟨rest⟩⟩
    | '-' :: rest => ⟨.remove, ⟨rest⟩⟩
    | '+' :: rest => ⟨.add, ⟨rest⟩⟩
    | _ => ⟨.context, line⟩

/-- The body-collecting `while` loop of `parseHunk`: starting at index
`i`, consume until end of input, a boundary line, or until `cap`
(`expectedLines`) collected lines; returns the collected lines and the
index of the first unconsumed line.  `fuel` only bounds recursion and
is always supplied ≥ the number of remaining input lines. -/
def parseHunkBody (lines : List String) : Nat → Nat → Nat → List DiffLine →
    (List DiffLine × Nat)
  | 0, i, _, acc => (acc.reverse, i)
  | fuel + 1, i, cap, acc =>
    if i < lines.length && acc.length < cap then
      let line := lines.getD i ""
      if isHunkBoundary line then (acc.reverse, i)
      else parseHunkBody lines fuel (i + 1) cap (classifyDiffLine line :: acc)
    else (acc.reverse, i)

/-- `CodeDiffProcessor.parseHunk`: parse the header at `startIndex`,
enforce `MAX_HUNK_SIZE`, then collect the body. -/
def parseHunk (lines : List String) (startIndex : Nat) :
    Except String (DiffHunk × Nat) :=
  let hunkHeader := lines.getD startIndex ""
  match parseHunkHeader hunkHeader.data with
  | none => .error ("Invalid hunk header format: " ++ hunkHeader)
  | some (os, olO, ns, nlO) =>
    let ol := olO.getD 1
    let nl := nlO.getD 1
    if ol > MAX_HUNK_SIZE || nl > MAX_HUNK_SIZE then
      .error ("Hunk too large (" ++ toString (max ol nl) ++ " lines, max " ++
        toString MAX_HUNK_SIZE ++ ")")
    else
      let expected := max ol nl + 10
      let (body, next) := parseHunkBody lines lines.length (startIndex + 1) expected []
      .ok (⟨os, ol, ns, nl, body⟩, next)

-- ===== whole-diff parsing =====

/-- The scanning loop of `CodeDiffProcessor.parseDiff`: skip
file-header lines, delegate `@@` lines to `parseHunk`, resume at the
returned index.  `fuel` only bounds recursion and is always supplied
≥ the number of remaining input lines. -/
def parseDiffLoop (lines : List String) : Nat → Nat → List DiffHunk →
    Except String (List DiffHunk)
  | 0, _, acc => .ok acc.reverse
  | fuel + 1, i, acc =>
    if i < lines.length then
      let line := lines.getD i ""
      if startsWithStr line "---" then parseDiffLoop lines fuel (i + 1) acc
      else if startsWithStr line "+++" then parseDiffLoop lines fuel (i + 1) acc
      else if startsWithStr line "@@" then
        match parseHunk lines i with
        | .ok (h, next) => parseDiffLoop lines fuel next (h :: acc)
        | .error e => .error ("Invalid hunk at line " ++ toString (i + 1) ++ ": " ++ e)
      else parseDiffLoop lines fuel (i + 1) acc
    else .ok acc.reverse

/-- `CodeDiffProcessor.parseDiff`. -/
def parseDiff (diffString : String) : Except String (List DiffHunk) :=
  let lines := splitLines diffString
  parseDiffLoop lines lines.length 0 []

-- ===== context validation =====

/-- The mismatch message of `validateHunkContext` (`idx` is the
0-based buffer index at which the mismatch occurred). -/
def mismatchMsg (idx : Nat) (expected got : String) : String :=
  "Line " ++ toString (idx + 1) ++ " doesn\x27t match expected content. Expected: \"" ++
    trimStr expected ++ "\", Got: \"" ++ trimStr got ++ "\""

/-- The walk of `validateHunkContext` over the filtered context/remove
lines, comparing trimmed content at consecutive buffer positions. -/
def validateWalk (buf : List String) : Nat → List DiffLine → Except String Unit
  | _, [] => .ok ()
  | idx, dl :: rest =>
    if idx ≥ buf.length then .error "Hunk extends beyond end of file"
    else
      let orig := buf.getD idx ""
      if trimStr orig ≠ trimStr dl.content then
        .error (mismatchMsg idx dl.content orig)
      else validateWalk buf (idx + 1) rest

/-- The context/remove lines of a hunk, in order (the `filter` in
`validateHunkContext`). -/
def ctxRem (h : DiffHunk) : List DiffLine :=
  h.lines.filter fun l => l.type == .context || l.type == .remove

/-- `CodeDiffProcessor.validateHunkContext`. -/
def validateHunkContext (originalLines : List String) (hunk : DiffHunk)
    (startIndex : Nat) : Except String Unit :=
  validateWalk originalLines startIndex (ctxRem hunk)

-- ===== hunk application =====

/-- The line-by-line mutation loop of `applyHunk`.  `origLen` is the
length of the buffer as passed in (the `originalLines.length` bound
used for context cursor advancement); `res` is the working copy
(`resultLines`), `idx` the cursor (`originalIndex`), `delta` the
running line-count delta.  `splice` index clamping is reproduced by
take/drop. -/
def applyLinesLoop (origLen : Nat) : List DiffLine → List String → Nat → Int →
    (List String × Int)
  | [], res, _, delta => (res, delta)
  | dl :: rest, res, idx, delta =>
    match dl.type with
    | .context =>
      applyLinesLoop origLen rest res (if idx < origLen then idx + 1 else idx) delta
    | .remove =>
      if idx < res.length then
        applyLinesLoop origLen rest (res.take idx ++ res.drop (idx + 1)) idx (delta - 1)
      else
        applyLinesLoop origLen rest res idx delta
    | .add =>
      applyLinesLoop origLen rest (res.take idx ++ dl.content :: res.drop idx)
        (idx + 1) (delta + 1)

/-- `CodeDiffProcessor.applyHunk`: bounds check, context validation,
then mutation; returns the new buffer and this hunk's line delta. -/
def applyHunk (originalLines : List String) (hunk : DiffHunk)
    (currentOffset : Int) : Except String (List String × Int) :=
  let adjustedOldStart : Int := (hunk.oldStart : Int) + currentOffset - 1
  if adjustedOldStart < 0 || adjustedOldStart ≥ (originalLines.length : Int) then
    .error ("Hunk start line " ++ toString (adjustedOldStart + 1) ++
      " is outside file bounds (1-" ++ toString originalLines.length ++ ")")
  else
    match validateHunkContext originalLines hunk adjustedOldStart.toNat with
    | .error e => .error ("Context validation failed: " ++ e)
    | .ok _ =>
      .ok (applyLinesLoop originalLines.length hunk.lines originalLines
        adjustedOldStart.toNat 0)

-- ===== whole-diff application =====

/-- The `for (const hunk of hunks)` loop of `applyCodeDiff`, carrying
the working buffer, running offset, applied count and warnings. -/
def applyLoop (total : Nat) : List DiffHunk → List String → Int → Nat →
    List String → DiffResult
  | [], buf, _, applied, warns =>
    ⟨true, some (joinLines buf), none, applied, total, warns⟩
  | h :: rest, buf, off, applied, warns =>
    match applyHunk buf h off with
    | .ok (newLines, delta) =>
      applyLoop total rest newLines (off + delta) (applied + 1) warns
    | .error e =>
      ⟨false, none,
        some ("Failed to apply hunk " ++ toString (applied + 1) ++ ": " ++ e),
        applied, total,
        warns ++ ["Hunk " ++ toString (applied + 1) ++ " failed: " ++ e]⟩

/-- `CodeDiffProcessor.applyCodeDiff`, the public entry point. -/
def applyCodeDiff (originalContent diffString : String) : DiffResult :=
  match parseDiff diffString with
  | .error e => ⟨false, none, some e, 0, 0, []⟩
  | .ok hunks =>
    if hunks.length = 0 then
      ⟨false, none, some "No valid hunks found in diff", 0, 0, []⟩
    else
      applyLoop hunks.length hunks (splitLines originalContent) 0 0 []

-- ===== diff generation =====

/-- The change-range scan of `generateDiff`: fold over positions
`0 .. maxLines-1`, recording first and last differing index
(`-1` sentinels when none), with missing lines read as `''`. -/
def findRangeStep (origL newL : List String) (st : Int × Int) (i : Nat) : Int × Int :=
  if origL.getD i "" ≠ newL.getD i "" then
    (if st.1 = -1 then (i : Int) else st.1, (i : Int))
  else st

/-- The `(changeStart, changeEnd)` pair computed by `generateDiff`. -/
def findRange (origL newL : List String) (maxLines : Nat) : Int × Int :=
  (List.range maxLines).foldl (findRangeStep origL newL) (-1, -1)

/-- The per-position emission of `generateDiff`'s output loop:
a context line when the two sides agree, otherwise a remove line
and/or an add line for whichever side has a line at this position. -/
def emitAt (origL newL : List String) (i : Nat) : String :=
  match origL[i]?, newL[i]? with
  | some o, some n =>
    if o = n then " " ++ o ++ "\n" else "-" ++ o ++ "\n" ++ "+" ++ n ++ "\n"
  | some o, none => "-" ++ o ++ "\n"
  | none, some n => "+" ++ n ++ "\n"
  | none, none => " " ++ "" ++ "\n"

/-- `CodeDiffProcessor.generateDiff`: positional single-hunk diff with
up to `MAX_CONTEXT_LINES` lines of context padding; header-only output
when the inputs are positionally identical. -/
def generateDiff (originalContent newContent filePath : String) : String :=
  let originalLines := splitLines originalContent
  let newLines := splitLines newContent
  let hdr := "--- a/" ++ filePath ++ "\n" ++ "+++ b/" ++ filePath ++ "\n"
  let maxLines := max originalLines.length newLines.length
  let (changeStart, changeEnd) := findRange originalLines newLines maxLines
  if changeStart = -1 then hdr
  else
    let contextStart : Nat := (changeStart - (MAX_CONTEXT_LINES : Int)).toNat
    let contextEnd : Nat := min (maxLines - 1) (changeEnd.toNat + MAX_CONTEXT_LINES)
    let oldCount := contextEnd - contextStart + 1
    let newCount := contextEnd - contextStart + 1
    hdr ++ "@@ -" ++ toString (contextStart + 1) ++ "," ++ toString oldCount ++
      " +" ++ toString (contextStart + 1) ++ "," ++ toString newCount ++ " @@\n" ++
      String.join (((List.range' contextStart (contextEnd - contextStart + 1)).map
        (emitAt originalLines newLines)))

-- ===== safety classification =====

/-- The `level` values of `validateDiffSafety`. -/
inductive SafetyLevel where
  | safe
  | caution
  | review
deriving DecidableEq, Repr

/-- The result object of `validateDiffSafety`. -/
structure SafetyResult where
  safe : Bool
  level : SafetyLevel
  issues : List String
deriving DecidableEq, Repr

/-- The accumulator of `validateDiffSafety`'s scanning loop. -/
structure SafetyState where
  added : Nat
  removed : Nat
  hunks : Nat
  level : SafetyLevel
  issues : List String
deriving DecidableEq, Repr

/-- One iteration of `validateDiffSafety`'s loop: count the line by
its leading marker, then run the two dangerous-pattern checks. -/
def safetyScanStep (st : SafetyState) (line : String) : SafetyState :=
  let st :=
    if startsWithStr line "@@" then { st with hunks := st.hunks + 1 }
    else if startsWithStr line "+" && !startsWithStr line "+++" then
      { st with added := st.added + 1 }
    else if startsWithStr line "-" && !startsWithStr line "---" then
      { st with removed := st.removed + 1 }
    else st
  let st :=
    if containsStr line "eval(" || containsStr line "exec(" then
      { st with
        level := SafetyLevel.review
        issues := st.issues ++ ["Contains potentially dangerous code execution"] }
    else st
  if containsStr line "rm -rf" || containsStr line "DELETE FROM" then
    { st with
      level := SafetyLevel.review
      issues := st.issues ++ ["Contains potentially destructive operations"] }
  else st

/-- The `(level, issues)` pair `validateDiffSafety` ends with, after
the large-diff threshold check. -/
def safetyCore (diffString : String) : SafetyLevel × List String :=
  let st := (splitLines diffString).foldl safetyScanStep ⟨0, 0, 0, .safe, []⟩
  if st.hunks > 5 || st.added + st.removed > 50 then
    (if st.level = .safe then .caution else st.level,
      st.issues ++ ["Large diff - consider manual review"])
  else (st.level, st.issues)

/-- `CodeDiffProcessor.validateDiffSafety` (the `safe` field is
`level !== 'review'` in the source). -/
def validateDiffSafety (diffString : String) : SafetyResult :=
  ⟨(safetyCore diffString).1 ≠ .review, (safetyCore diffString).1,
    (safetyCore diffString).2⟩

-- ===== specification-side definitions (stated from the claims, for =====
-- ===== comparison against the implementation definitions above)   =====

/-- Line classification as the specification words it: dispatch on the
first character (space → context keeping the rest, minus → remove,
plus → add), with an empty or otherwise-unprefixed line kept verbatim
as a context line. -/
def classifyLineSpec (line : String) : DiffLine :=
  match line.data with
  | [] => ⟨.context, line⟩
  | ' ' :: rest => ⟨.context, ⟨rest⟩⟩
  | '-' :: rest => ⟨.remove, ⟨rest⟩⟩
  | '+' :: rest => ⟨.add, ⟨rest⟩⟩
  | _ :: _ => ⟨.context, line⟩

/-- Sequential application of the first `k` hunks, as the
specification describes the orchestrator: thread the buffer and the
cumulative line-count delta, giving up on the first failure. -/
def applyPrefixN (buf : List String) (off : Int) : List DiffHunk → Nat →
    Option (List String × Int)
  | _, 0 => some (buf, off)
  | [], _ + 1 => none
  | h :: rest, k + 1 =>
    match applyHunk buf h off with
    | .ok (b, d) => applyPrefixN b (off + d) rest k
    | .error _ => none

/-- A hunk-header line as the safety classifier counts them. -/
def isHunkHeaderLine (l : String) : Bool := startsWithStr l "@@"

/-- An added line as the safety classifier counts them. -/
def isAddedLine (l : String) : Bool :=
  startsWithStr l "+" && !startsWithStr l "+++"

/-- A removed line as the safety classifier counts them. -/
def isRemovedLine (l : String) : Bool :=
  startsWithStr l "-" && !startsWithStr l "---"

-- ===== theorems =====

/-- Claim C3: the round-trip property fails on the code.  For the
single contiguous edit replacing line 2 of `"a\nb\nc"` with `"B"`,
applying the generated diff does not reproduce the edit: the
generated diff ends in a newline, so its trailing empty split line is
parsed as one extra context line, and validation runs past the end of
the three-line buffer and fails instead of succeeding with the edited
text. -/
theorem claim_C3_roundtrip_fails_on_code :
    (applyCodeDiff "a\nb\nc" (generateDiff "a\nb\nc" "a\nB\nc" "f")).success = false ∧
    (applyCodeDiff "a\nb\nc" (generateDiff "a\nb\nc" "a\nB\nc" "f")).newContent ≠
      some "a\nB\nc" ∧
    (applyCodeDiff "a\nb\nc" (generateDiff "a\nb\nc" "a\nB\nc" "f")).error =
      some "Failed to apply hunk 1: Context validation failed: Hunk extends beyond end of file" := by
  decide

/-- Claim C4, counterexample: applying the header-only diff produced
by `generateDiff T T path` does not return `T` as `newContent`; the
applier rejects an empty hunk set, so `newContent` is absent. -/
theorem claim_C4_counterexample :
    ¬ ((applyCodeDiff "a\nb" (generateDiff "a\nb" "a\nb" "f.txt")).newContent =
      some "a\nb") := by
  decide

/-- Claim C6, counterexample: with header `@@ -1,1 +1,1 @@` followed by
twelve body lines and no further boundary line, the body parser stops
after `max(oldLines,newLines) + 10 = 11` consumed lines, not at the
end of the input, so "consume until another header line, a file-header
line, or end of input" is false as stated. -/
theorem claim_C6_counterexample :
    (parseHunk ("@@ -1,1 +1,1 @@" :: List.replicate 12 " x") 0).toOption.map
      (fun r => (r.1.lines.length, r.2)) = some (11, 12) ∧
    ("@@ -1,1 +1,1 @@" :: List.replicate 12 " x").length = 13 ∧
    (∀ l ∈ List.replicate 12 " x", isHunkBoundary l = false) := by
  decide

/-- Claim C9, counterexample: a diff with six hunk headers and no
dangerous pattern is classified `caution`, yet its `safe` field is
`true`, so "`safe` is true only when the level is `safe`" is false. -/
theorem claim_C9_counterexample :
    (validateDiffSafety (joinLines (List.replicate 6 "@@ -1 +1 @@"))).level =
      SafetyLevel.caution ∧
    (validateDiffSafety (joinLines (List.replicate 6 "@@ -1 +1 @@"))).safe = true := by
  decide

/-- Claim C9, amended: the auto-apply flag (`safe`) is true exactly
when the computed level is not `review`, i.e. at `safe` and at
`caution`, and false at `review`. -/
theorem claim_C9_amended (d : String) :
    (validateDiffSafety d).safe = true ↔
      ((validateDiffSafety d).level = SafetyLevel.safe ∨
        (validateDiffSafety d).level = SafetyLevel.caution) := by
  cases h : (safetyCore d).1 <;> simp [validateDiffSafety, h]

/-- Claim C10, counterexample: a hunk anchored on the last existing
line can append content after it — the buffer `"a"` with the hunk
`@@ -1,1 +1,2 @@`, one matching context line and one add line,
succeeds and inserts `"b"` after the last line, so "no hunk can ever
insert content at a position after the last existing line" is false. -/
theorem claim_C10_counterexample :
    (applyCodeDiff "a" "@@ -1,1 +1,2 @@\n a\n+b").success = true ∧
    (applyCodeDiff "a" "@@ -1,1 +1,2 @@\n a\n+b").newContent = some "a\nb" := by
  decide

/-- Claim C10, amended: any hunk whose offset-adjusted start position
exceeds the number of buffer lines — including a pure-append hunk at
position `n + 1` — is rejected by `applyHunk` (hence by
`applyCodeDiff`) with the out-of-bounds error; appending is only
possible for hunks anchored at an existing line. -/
theorem claim_C10_out_of_bounds_start (lines : List String) (hunk : DiffHunk)
    (off : Int) (h : (lines.length : Int) < (hunk.oldStart : Int) + off) :
    applyHunk lines hunk off =
      .error ("Hunk start line " ++ toString ((hunk.oldStart : Int) + off) ++
        " is outside file bounds (1-" ++ toString lines.length ++ ")") := by
  have h2 : (hunk.oldStart : Int) + off - 1 ≥ (lines.length : Int) := by omega
  have h3 : (hunk.oldStart : Int) + off - 1 + 1 = (hunk.oldStart : Int) + off := by
    omega
  unfold applyHunk
  rw [if_pos]
  · rw [h3]
  · simp [h2]

/-- Claim C10, witness: the pure-append hunk at line 2 of a one-line
buffer is rejected with the out-of-bounds error. -/
theorem claim_C10_witness :
    applyHunk ["a"] ⟨2, 1, 2, 2, [⟨.add, "b"⟩]⟩ 0 =
      .error ("Hunk start line " ++ toString (((2 : Nat) : Int) + 0) ++
        " is outside file bounds (1-" ++ toString (["a"] : List String).length ++ ")") :=
  claim_C10_out_of_bounds_start ["a"] ⟨2, 1, 2, 2, [⟨.add, "b"⟩]⟩ 0 (by decide)

-- ===== helper lemmas: strings =====

theorem strData_append (a b : String) : (a ++ b).data = a.data ++ b.data := by
  cases a; cases b; rfl

theorem strAppend_assoc (a b c : String) : a ++ b ++ c = a ++ (b ++ c) := by
  cases a; cases b; cases c
  show String.mk _ = String.mk _
  simp [String.append]

theorem isPrefixL_refl : ∀ (l : List Char), isPrefixL l l = true := by
  intro l
  induction l with
  | nil => rfl
  | cons c cs ih => simp [isPrefixL, ih]

theorem isPrefixL_extend : ∀ (x l t : List Char),
    isPrefixL x l = true → isPrefixL x (l ++ t) = true := by
  intro x
  induction x with
  | nil => intro l t _; rfl
  | cons c cs ih =>
    intro l t hx
    cases l with
    | nil => simp [isPrefixL] at hx
    | cons d ds =>
      simp only [isPrefixL, Bool.and_eq_true] at hx
      simp only [List.cons_append, isPrefixL, Bool.and_eq_true]
      exact ⟨hx.1, ih ds t hx.2⟩

theorem hasSubList_of_isPrefixL (x l : List Char) (h : isPrefixL x l = true) :
    hasSubList x l = true := by
  cases l with
  | nil => simpa [hasSubList] using h
  | cons c cs => simp [hasSubList, h]

theorem hasSubList_append_right : ∀ (a x b : List Char),
    hasSubList x b = true → hasSubList x (a ++ b) = true := by
  intro a
  induction a with
  | nil => intro x b h; simpa using h
  | cons c cs ih =>
    intro x b h
    simp only [List.cons_append, hasSubList, Bool.or_eq_true]
    exact Or.inr (ih x b h)

theorem hasSubList_append_left : ∀ (a x b : List Char),
    hasSubList x a = true → hasSubList x (a ++ b) = true := by
  intro a
  induction a with
  | nil =>
    intro x b h
    simp only [hasSubList] at h
    cases x with
    | nil =>
      cases b with
      | nil => rfl
      | cons d ds => simp [hasSubList, isPrefixL]
    | cons c cs => simp [isPrefixL] at h
  | cons c cs ih =>
    intro x b h
    simp only [hasSubList, Bool.or_eq_true] at h
    simp only [List.cons_append, hasSubList, Bool.or_eq_true]
    cases h with
    | inl h => exact Or.inl (isPrefixL_extend x (c :: cs) b h)
    | inr h => exact Or.inr (ih x b h)

theorem containsStr_append_right (a x b : String)
    (h : containsStr b x = true) : containsStr (a ++ b) x = true := by
  unfold containsStr at h ⊢
  rw [strData_append]
  exact hasSubList_append_right a.data x.data b.data h

theorem containsStr_append_left (a x b : String)
    (h : containsStr a x = true) : containsStr (a ++ b) x = true := by
  unfold containsStr at h ⊢
  rw [strData_append]
  exact hasSubList_append_left a.data x.data b.data h

theorem containsStr_self_append (x y : String) : containsStr (x ++ y) x = true := by
  unfold containsStr
  rw [strData_append]
  exact hasSubList_of_isPrefixL _ _ (isPrefixL_extend _ _ _ (isPrefixL_refl x.data))

-- ===== helper lemmas: the orchestrator loop =====

theorem applyLoop_prefixN (k : Nat) :
    ∀ (hs : List DiffHunk) (buf : List String) (off : Int) (applied : Nat)
      (warns : List String) (total : Nat) (buf' : List String) (off' : Int),
      applyPrefixN buf off hs k = some (buf', off') →
      applyLoop total hs buf off applied warns =
        applyLoop total (hs.drop k) buf' off' (applied + k) warns := by
  induction k with
  | zero =>
    intro hs buf off applied warns total buf' off' h
    simp only [applyPrefixN, Option.some.injEq, Prod.mk.injEq] at h
    rw [← h.1, ← h.2]
    simp
  | succ k ih =>
    intro hs buf off applied warns total buf' off' h
    cases hs with
    | nil => simp [applyPrefixN] at h
    | cons hd tl =>
      cases hah : applyHunk buf hd off with
      | error e => rw [applyPrefixN, hah] at h; exact absurd h (by simp)
      | ok bd =>
        obtain ⟨b, d⟩ := bd
        rw [applyPrefixN, hah] at h
        have step : applyLoop total (hd :: tl) buf off applied warns =
            applyLoop total tl b (off + d) (applied + 1) warns := by
          rw [applyLoop, hah]
        rw [step, ih tl b (off + d) (applied + 1) warns total buf' off' h]
        have : applied + 1 + k = applied + (k + 1) := by omega
        rw [this, List.drop_succ_cons]

theorem applyCodeDiff_fail_at (T d : String) (hunks : List DiffHunk) (i : Nat)
    (h : DiffHunk) (rest : List DiffHunk) (buf : List String) (off : Int) (e : String)
    (hparse : parseDiff d = .ok hunks)
    (hdrop : hunks.drop i = h :: rest)
    (hpre : applyPrefixN (splitLines T) 0 hunks i = some (buf, off))
    (hfail : applyHunk buf h off = .error e) :
    applyCodeDiff T d =
      ⟨false, none, some ("Failed to apply hunk " ++ toString (i + 1) ++ ": " ++ e),
        i, hunks.length, ["Hunk " ++ toString (i + 1) ++ " failed: " ++ e]⟩ := by
  have hne : ¬ hunks.length = 0 := by
    intro h0
    rw [List.length_eq_zero] at h0
    subst h0
    simp at hdrop
  unfold applyCodeDiff
  rw [hparse]
  simp only [if_neg hne]
  rw [applyLoop_prefixN i hunks (splitLines T) 0 0 [] hunks.length buf off hpre, hdrop]
  rw [applyLoop, hfail]
  simp

-- ===== helper lemmas: context validation walk =====

theorem validateWalk_mismatch :
    ∀ (ls : List DiffLine) (buf : List String) (idx k : Nat), k < ls.length →
      (∀ j, j < k → idx + j < buf.length ∧
        trimStr (buf.getD (idx + j) "") =
          trimStr ((ls.getD j ⟨.context, ""⟩).content)) →
      idx + k < buf.length →
      trimStr (buf.getD (idx + k) "") ≠
        trimStr ((ls.getD k ⟨.context, ""⟩).content) →
      validateWalk buf idx ls =
        .error (mismatchMsg (idx + k) ((ls.getD k ⟨.context, ""⟩).content)
          (buf.getD (idx + k) "")) := by
  intro ls
  induction ls with
  | nil => intro buf idx k hk; simp at hk
  | cons hd tl ih =>
    intro buf idx k hk hprev hin hne
    cases k with
    | zero =>
      simp only [Nat.add_zero] at hin hne
      simp only [List.getD_cons_zero] at hne ⊢
      rw [validateWalk, if_neg (by omega), if_pos hne]
      simp
    | succ k' =>
      obtain ⟨hin0, heq0⟩ := hprev 0 (Nat.succ_pos k')
      simp only [Nat.add_zero, List.getD_cons_zero] at hin0 heq0
      rw [validateWalk, if_neg (by omega), if_neg (by simpa using heq0)]
      have hrec := ih buf (idx + 1) k' (by simpa using hk)
        (fun j hj => by
          have := hprev (j + 1) (by omega)
          simpa [Nat.add_assoc, Nat.add_comm 1 j] using this)
        (by omega)
        (by
          have harith : idx + 1 + k' = idx + (k' + 1) := by omega
          rw [harith]
          simpa using hne)
      rw [hrec]
      have harith : idx + 1 + k' = idx + (k' + 1) := by omega
      rw [harith]
      simp

theorem validateWalk_eof :
    ∀ (ls : List DiffLine) (buf : List String) (idx k : Nat), k < ls.length →
      (∀ j, j < k → idx + j < buf.length ∧
        trimStr (buf.getD (idx + j) "") =
          trimStr ((ls.getD j ⟨.context, ""⟩).content)) →
      idx + k ≥ buf.length →
      validateWalk buf idx ls = .error "Hunk extends beyond end of file" := by
  intro ls
  induction ls with
  | nil => intro buf idx k hk; simp at hk
  | cons hd tl ih =>
    intro buf idx k hk hprev hge
    cases k with
    | zero =>
      rw [validateWalk, if_pos (by omega)]
    | succ k' =>
      obtain ⟨hin0, heq0⟩ := hprev 0 (Nat.succ_pos k')
      simp only [Nat.add_zero, List.getD_cons_zero] at hin0 heq0
      rw [validateWalk, if_neg (by omega), if_neg (by simpa using heq0)]
      exact ih buf (idx + 1) k' (by simpa using hk)
        (fun j hj => by
          have := hprev (j + 1) (by omega)
          simpa [Nat.add_assoc, Nat.add_comm 1 j] using this)
        (by omega)

-- ===== helper lemmas: applyHunk failure shapes =====

theorem applyHunk_oob (buf : List String) (h : DiffHunk) (off : Int)
    (hout : (h.oldStart : Int) + off - 1 < 0 ∨
      (h.oldStart : Int) + off - 1 ≥ (buf.length : Int)) :
    applyHunk buf h off =
      .error ("Hunk start line " ++ toString ((h.oldStart : Int) + off - 1 + 1) ++
        " is outside file bounds (1-" ++ toString buf.length ++ ")") := by
  unfold applyHunk
  rw [if_pos]
  rcases hout with h1 | h1 <;> simp [h1]

theorem applyHunk_validate_err (buf : List String) (h : DiffHunk) (off : Int)
    (e : String)
    (hpos : 0 ≤ (h.oldStart : Int) + off - 1)
    (hlt : (h.oldStart : Int) + off - 1 < (buf.length : Int))
    (hv : validateHunkContext buf h ((h.oldStart : Int) + off - 1).toNat = .error e) :
    applyHunk buf h off = .error ("Context validation failed: " ++ e) := by
  unfold applyHunk
  rw [if_neg (by simp; omega)]
  rw [hv]

/-- Claim C2: all-or-nothing.  If the first `i` hunks of a parsed diff
apply in sequence but hunk `i` (0-based) then fails, `applyCodeDiff`
reports failure with `appliedHunks` equal to `i` — exactly the hunks
strictly before the failing one — and no `newContent` is returned. -/
theorem claim_C2_all_or_nothing (T d : String) (hunks : List DiffHunk) (i : Nat)
    (h : DiffHunk) (rest : List DiffHunk) (buf : List String) (off : Int)
    (e : String)
    (hparse : parseDiff d = .ok hunks)
    (hdrop : hunks.drop i = h :: rest)
    (hpre : applyPrefixN (splitLines T) 0 hunks i = some (buf, off))
    (hfail : applyHunk buf h off = .error e) :
    (applyCodeDiff T d).success = false ∧
    (applyCodeDiff T d).appliedHunks = i ∧
    (applyCodeDiff T d).newContent = none := by
  rw [applyCodeDiff_fail_at T d hunks i h rest buf off e hparse hdrop hpre hfail]
  exact ⟨rfl, rfl, rfl⟩

/-- Claim C2, witness: a two-hunk diff over `"a\nb\nc\nd\ne\nf\n"`
whose first hunk applies and whose second hunk mismatches yields
`success = false`, `appliedHunks = 1`, and no content. -/
theorem claim_C2_witness :
    (applyCodeDiff "a\nb\nc\nd\ne\nf\n"
        "@@ -1,1 +1,1 @@\n-a\n+A\n@@ -5,1 +5,1 @@\n-x\n+X").success = false ∧
    (applyCodeDiff "a\nb\nc\nd\ne\nf\n"
        "@@ -1,1 +1,1 @@\n-a\n+A\n@@ -5,1 +5,1 @@\n-x\n+X").appliedHunks = 1 ∧
    (applyCodeDiff "a\nb\nc\nd\ne\nf\n"
        "@@ -1,1 +1,1 @@\n-a\n+A\n@@ -5,1 +5,1 @@\n-x\n+X").newContent = none :=
  claim_C2_all_or_nothing "a\nb\nc\nd\ne\nf\n"
    "@@ -1,1 +1,1 @@\n-a\n+A\n@@ -5,1 +5,1 @@\n-x\n+X"
    [⟨1, 1, 1, 1, [⟨.remove, "a"⟩, ⟨.add, "A"⟩]⟩,
      ⟨5, 1, 5, 1, [⟨.remove, "x"⟩, ⟨.add, "X"⟩]⟩]
    1 ⟨5, 1, 5, 1, [⟨.remove, "x"⟩, ⟨.add, "X"⟩]⟩ []
    ["A", "b", "c", "d", "e", "f", ""] 0
    "Context validation failed: Line 5 doesn\x27t match expected content. Expected: \"x\", Got: \"e\""
    rfl (by decide) (by decide) rfl

/-- Claim C1: context validation before mutation.  Let `hunks` be the
parsed diff, suppose the first `i` hunks apply (yielding buffer `buf`
and cumulative delta `off`), and let `start` be hunk `i`'s declared
start adjusted by `off` (0-based).  If the hunk's context/remove lines
match the buffer, trimmed, at consecutive positions up to position
`k`, and the line at `k` differs after trimming, then `applyCodeDiff`
fails and its error message contains the 1-based line number of the
mismatch, the trimmed patch-declared content, and the trimmed actual
file content. -/
theorem claim_C1_context_mismatch (T d : String) (hunks : List DiffHunk)
    (i : Nat) (h : DiffHunk) (rest : List DiffHunk) (buf : List String)
    (off : Int) (start k : Nat)
    (hparse : parseDiff d = .ok hunks)
    (hdrop : hunks.drop i = h :: rest)
    (hpre : applyPrefixN (splitLines T) 0 hunks i = some (buf, off))
    (hstart : (start : Int) = (h.oldStart : Int) + off - 1)
    (hk : k < (ctxRem h).length)
    (hprev : ∀ j, j < k → start + j < buf.length ∧
      trimStr (buf.getD (start + j) "") =
        trimStr (((ctxRem h).getD j ⟨.context, ""⟩).content))
    (hin : start + k < buf.length)
    (hne : trimStr (buf.getD (start + k) "") ≠
      trimStr (((ctxRem h).getD k ⟨.context, ""⟩).content)) :
    (applyCodeDiff T d).success = false ∧
    ∃ msg, (applyCodeDiff T d).error = some msg ∧
      containsStr msg (toString (start + k + 1)) = true ∧
      containsStr msg (trimStr (((ctxRem h).getD k ⟨.context, ""⟩).content)) = true ∧
      containsStr msg (trimStr (buf.getD (start + k) "")) = true := by
  have hwalk : validateHunkContext buf h ((h.oldStart : Int) + off - 1).toNat =
      .error (mismatchMsg (start + k) (((ctxRem h).getD k ⟨.context, ""⟩).content)
        (buf.getD (start + k) "")) := by
    have htn : ((h.oldStart : Int) + off - 1).toNat = start := by omega
    rw [htn]
    exact validateWalk_mismatch (ctxRem h) buf start k hk hprev hin hne
  have hfail := applyHunk_validate_err buf h off _ (by omega) (by omega) hwalk
  rw [applyCodeDiff_fail_at T d hunks i h rest buf off _ hparse hdrop hpre hfail]
  refine ⟨rfl, _, rfl, ?_, ?_, ?_⟩
  · unfold mismatchMsg
    simp only [strAppend_assoc]
    apply containsStr_append_right
    apply containsStr_append_right
    apply containsStr_append_right
    apply containsStr_append_right
    apply containsStr_append_right
    exact containsStr_self_append _ _
  · unfold mismatchMsg
    simp only [strAppend_assoc]
    apply containsStr_append_right
    apply containsStr_append_right
    apply containsStr_append_right
    apply containsStr_append_right
    apply containsStr_append_right
    apply containsStr_append_right
    apply containsStr_append_right
    exact containsStr_self_append _ _
  · unfold mismatchMsg
    simp only [strAppend_assoc]
    apply containsStr_append_right
    apply containsStr_append_right
    apply containsStr_append_right
    apply containsStr_append_right
    apply containsStr_append_right
    apply containsStr_append_right
    apply containsStr_append_right
    apply containsStr_append_right
    apply containsStr_append_right
    exact containsStr_self_append _ _

/-- Claim C1, witness: original `"x\ny"` against a diff whose first
context line claims `"z"` at line 1 fails, and the error message
contains the line number `1`, the expected `"z"` and the actual
`"x"`. -/
theorem claim_C1_witness :
    (applyCodeDiff "x\ny" "--- a/f\n+++ b/f\n@@ -1,2 +1,2 @@\n z\n y\n").success
        = false ∧
    ∃ msg,
      (applyCodeDiff "x\ny" "--- a/f\n+++ b/f\n@@ -1,2 +1,2 @@\n z\n y\n").error
          = some msg ∧
      containsStr msg (toString (0 + 0 + 1)) = true ∧
      containsStr msg (trimStr (((ctxRem ⟨1, 2, 1, 2,
        [⟨.context, "z"⟩, ⟨.context, "y"⟩, ⟨.context, ""⟩]⟩).getD 0
          ⟨.context, ""⟩).content)) = true ∧
      containsStr msg (trimStr ((["x", "y"] : List String).getD (0 + 0) "")) = true :=
  claim_C1_context_mismatch "x\ny" "--- a/f\n+++ b/f\n@@ -1,2 +1,2 @@\n z\n y\n"
    [⟨1, 2, 1, 2, [⟨.context, "z"⟩, ⟨.context, "y"⟩, ⟨.context, ""⟩]⟩]
    0 ⟨1, 2, 1, 2, [⟨.context, "z"⟩, ⟨.context, "y"⟩, ⟨.context, ""⟩]⟩ []
    ["x", "y"] 0 0 0
    rfl (by decide) rfl (by decide) (by decide)
    (fun j hj => absurd hj (Nat.not_lt_zero j))
    (by decide) (by decide)

-- ===== helper lemmas: message distinctness =====

theorem strAppend_left_cancel {a b c : String} (h : a ++ b = a ++ c) : b = c := by
  have hd := congrArg String.data h
  rw [strData_append, strData_append] at hd
  have hbc := List.append_cancel_left hd
  cases b; cases c
  exact congrArg String.mk hbc

theorem strNe_of_headNe (p q y z : String) (cp cq : Char)
    (hp : p.data.head? = some cp) (hq : q.data.head? = some cq) (hne : cp ≠ cq) :
    p ++ y ≠ q ++ z := by
  intro h
  have hh := congrArg (fun s => s.data.head?) h
  simp only [strData_append] at hh
  cases hpd : p.data with
  | nil => rw [hpd] at hp; simp at hp
  | cons a as =>
    cases hqd : q.data with
    | nil => rw [hqd] at hq; simp at hq
    | cons b bs =>
      rw [hpd] at hp hh
      rw [hqd] at hq hh
      simp only [List.cons_append, List.head?_cons, Option.some.injEq] at hp hq hh
      exact hne (hp ▸ hq ▸ hh)

/-- Claim C5: bounds errors.  In a run of `applyCodeDiff` whose first
`i` hunks applied (buffer `buf`, cumulative delta `off`), for hunk `i`:
(1) if its adjusted start falls outside the buffer, the result is a
failure whose error is exactly the "outside file bounds" message; and
(2) if the start is in bounds but the context/remove walk would read
past the end of the buffer (every position up to the buffer end
matching, trimmed), the result is a failure whose error is exactly the
"Hunk extends beyond end of file" message.  In both cases no
out-of-range fault occurs (the engine is total and returns a result),
and the error differs from every content-mismatch message. -/
theorem claim_C5_bounds_errors (T d : String) (hunks : List DiffHunk)
    (i : Nat) (h : DiffHunk) (rest : List DiffHunk) (buf : List String)
    (off : Int)
    (hparse : parseDiff d = .ok hunks)
    (hdrop : hunks.drop i = h :: rest)
    (hpre : applyPrefixN (splitLines T) 0 hunks i = some (buf, off)) :
    (((h.oldStart : Int) + off - 1 < 0 ∨
        (h.oldStart : Int) + off - 1 ≥ (buf.length : Int)) →
      (applyCodeDiff T d).success = false ∧
      (applyCodeDiff T d).error =
        some ("Failed to apply hunk " ++ toString (i + 1) ++ ": " ++
          ("Hunk start line " ++ toString ((h.oldStart : Int) + off) ++
            " is outside file bounds (1-" ++ toString buf.length ++ ")")) ∧
      (∀ (k : Nat) (c g : String), (applyCodeDiff T d).error ≠
        some ("Failed to apply hunk " ++ toString (i + 1) ++ ": " ++
          ("Context validation failed: " ++ mismatchMsg k c g)))) ∧
    (∀ start : Nat, (start : Int) = (h.oldStart : Int) + off - 1 →
      start < buf.length →
      buf.length - start < (ctxRem h).length →
      (∀ j, j < buf.length - start →
        trimStr (buf.getD (start + j) "") =
          trimStr (((ctxRem h).getD j ⟨.context, ""⟩).content)) →
      (applyCodeDiff T d).success = false ∧
      (applyCodeDiff T d).error =
        some ("Failed to apply hunk " ++ toString (i + 1) ++ ": " ++
          ("Context validation failed: " ++ "Hunk extends beyond end of file")) ∧
      (∀ (k : Nat) (c g : String), (applyCodeDiff T d).error ≠
        some ("Failed to apply hunk " ++ toString (i + 1) ++ ": " ++
          ("Context validation failed: " ++ mismatchMsg k c g)))) := by
  constructor
  · intro hout
    have hfail := applyHunk_oob buf h off hout
    have h1 : (h.oldStart : Int) + off - 1 + 1 = (h.oldStart : Int) + off := by omega
    rw [h1] at hfail
    rw [applyCodeDiff_fail_at T d hunks i h rest buf off _ hparse hdrop hpre hfail]
    refine ⟨rfl, rfl, ?_⟩
    intro k c g heq
    simp only [Option.some.injEq] at heq
    simp only [strAppend_assoc] at heq
    have heq2 := strAppend_left_cancel (strAppend_left_cancel
      (strAppend_left_cancel heq))
    exact strNe_of_headNe "Hunk start line " "Context validation failed: "
      _ _ 'H' 'C' rfl rfl (by decide) heq2
  · intro start hstart hlt hlen hmatch
    have hwalk : validateHunkContext buf h ((h.oldStart : Int) + off - 1).toNat =
        .error "Hunk extends beyond end of file" := by
      have htn : ((h.oldStart : Int) + off - 1).toNat = start := by omega
      rw [htn]
      exact validateWalk_eof (ctxRem h) buf start (buf.length - start) hlen
        (fun j hj => ⟨by omega, hmatch j hj⟩) (by omega)
    have hfail := applyHunk_validate_err buf h off _ (by omega) (by omega) hwalk
    rw [applyCodeDiff_fail_at T d hunks i h rest buf off _ hparse hdrop hpre hfail]
    refine ⟨rfl, rfl, ?_⟩
    intro k c g heq
    simp only [Option.some.injEq] at heq
    simp only [strAppend_assoc] at heq
    have heq2 := strAppend_left_cancel (strAppend_left_cancel
      (strAppend_left_cancel (strAppend_left_cancel heq)))
    have hL : (mismatchMsg k c g).data.head? = some 'L' := by
      unfold mismatchMsg
      simp only [strData_append]
      rfl
    have hH := congrArg (fun s => s.data.head?) heq2
    simp only at hH
    rw [hL] at hH
    exact absurd hH (by decide)

/-- Claim C5, witness: on the two-line file `"x\ny"`, a hunk declared
at line 5 fails with the exact out-of-bounds message, and a hunk at
line 2 whose two context lines run past the end fails with the exact
beyond-end-of-file message; neither error equals any content-mismatch
message. -/
theorem claim_C5_witness :
    ((applyCodeDiff "x\ny" "@@ -5,1 +5,1 @@\n-q").success = false ∧
      (applyCodeDiff "x\ny" "@@ -5,1 +5,1 @@\n-q").error =
        some ("Failed to apply hunk " ++ toString (0 + 1) ++ ": " ++
          ("Hunk start line " ++ toString (((5 : Nat) : Int) + 0) ++
            " is outside file bounds (1-" ++
            toString (["x", "y"] : List String).length ++ ")")) ∧
      (∀ (k : Nat) (c g : String),
        (applyCodeDiff "x\ny" "@@ -5,1 +5,1 @@\n-q").error ≠
          some ("Failed to apply hunk " ++ toString (0 + 1) ++ ": " ++
            ("Context validation failed: " ++ mismatchMsg k c g)))) ∧
    ((applyCodeDiff "x\ny" "@@ -2,2 +2,2 @@\n y\n z").success = false ∧
      (applyCodeDiff "x\ny" "@@ -2,2 +2,2 @@\n y\n z").error =
        some ("Failed to apply hunk " ++ toString (0 + 1) ++ ": " ++
          ("Context validation failed: " ++ "Hunk extends beyond end of file")) ∧
      (∀ (k : Nat) (c g : String),
        (applyCodeDiff "x\ny" "@@ -2,2 +2,2 @@\n y\n z").error ≠
          some ("Failed to apply hunk " ++ toString (0 + 1) ++ ": " ++
            ("Context validation failed: " ++ mismatchMsg k c g)))) :=
  ⟨(claim_C5_bounds_errors "x\ny" "@@ -5,1 +5,1 @@\n-q"
      [⟨5, 1, 5, 1, [⟨.remove, "q"⟩]⟩] 0 ⟨5, 1, 5, 1, [⟨.remove, "q"⟩]⟩ []
      ["x", "y"] 0 rfl (by decide) rfl).1 (by decide),
    (claim_C5_bounds_errors "x\ny" "@@ -2,2 +2,2 @@\n y\n z"
      [⟨2, 2, 2, 2, [⟨.context, "y"⟩, ⟨.context, "z"⟩]⟩] 0
      ⟨2, 2, 2, 2, [⟨.context, "y"⟩, ⟨.context, "z"⟩]⟩ []
      ["x", "y"] 0 rfl (by decide) rfl).2 1 (by decide) (by decide) (by decide)
      (fun j hj => by
        have hj' : j < 1 := by simpa using hj
        have hj0 : j = 0 := by omega
        subst hj0
        decide)⟩

-- ===== helper lemmas: parsing a diff with no hunk headers =====

theorem parseDiffLoop_no_hunks (lines : List String)
    (hno : ∀ l ∈ lines, startsWithStr l "@@" = false) :
    ∀ (fuel i : Nat) (acc : List DiffHunk),
      parseDiffLoop lines fuel i acc = .ok acc.reverse := by
  intro fuel
  induction fuel with
  | zero => intro i acc; rfl
  | succ fuel ih =>
    intro i acc
    rw [parseDiffLoop]
    by_cases hi : i < lines.length
    · rw [if_pos hi]
      have hmem : lines.getD i "" ∈ lines := by
        rw [List.getD_eq_getElem lines "" hi]
        exact List.getElem_mem hi
      have hat := hno _ hmem
      by_cases h3 : startsWithStr (lines.getD i "") "---" = true
      · rw [if_pos h3]; exact ih (i + 1) acc
      · rw [if_neg h3]
        by_cases h4 : startsWithStr (lines.getD i "") "+++" = true
        · rw [if_pos h4]; exact ih (i + 1) acc
        · rw [if_neg h4, if_neg (by rw [hat]; exact Bool.false_ne_true)]
          exact ih (i + 1) acc
    · rw [if_neg hi]

/-- Claim C7: a diff text with no hunk-header lines parses
successfully to an empty hunk sequence, and whenever the parse yields
zero hunks, `applyCodeDiff` fails with the "no valid hunks" error and
zero applied and total hunk counts. -/
theorem claim_C7_empty_hunks :
    (∀ d : String, (∀ l ∈ splitLines d, startsWithStr l "@@" = false) →
      parseDiff d = .ok []) ∧
    (∀ T d : String, parseDiff d = .ok [] →
      applyCodeDiff T d =
        ⟨false, none, some "No valid hunks found in diff", 0, 0, []⟩) := by
  constructor
  · intro d hno
    unfold parseDiff
    exact parseDiffLoop_no_hunks (splitLines d) hno (splitLines d).length 0 []
  · intro T d hp
    unfold applyCodeDiff
    rw [hp]
    rfl

/-- Claim C7, witness: the text `"hello\nworld"` contains no hunk
header; it parses to zero hunks and applying it fails with the
"no valid hunks" result. -/
theorem claim_C7_witness :
    parseDiff "hello\nworld" = .ok [] ∧
    applyCodeDiff "x" "hello\nworld" =
      ⟨false, none, some "No valid hunks found in diff", 0, 0, []⟩ :=
  ⟨claim_C7_empty_hunks.1 "hello\nworld" (by decide),
    claim_C7_empty_hunks.2 "x" "hello\nworld"
      (claim_C7_empty_hunks.1 "hello\nworld" (by decide))⟩

-- ===== helper lemmas: the no-op generated diff (claim C4) =====

theorem strMk_append (a b : String) : String.mk (a.data ++ b.data) = a ++ b := by
  cases a; cases b; rfl

theorem findRangeStep_self (l : List String) (st : Int × Int) (i : Nat) :
    findRangeStep l l st i = st := by
  unfold findRangeStep
  rw [if_neg (fun h => h rfl)]

theorem findRange_self (l : List String) (n : Nat) : findRange l l n = (-1, -1) := by
  unfold findRange
  generalize List.range n = idxs
  induction idxs with
  | nil => rfl
  | cons a as ih => rw [List.foldl_cons, findRangeStep_self]; exact ih

theorem generateDiff_self (T path : String) :
    generateDiff T T path = "--- a/" ++ path ++ "\n" ++ "+++ b/" ++ path ++ "\n" := by
  unfold generateDiff
  dsimp only
  rw [findRange_self, if_pos rfl]

theorem splitChars_append_nl :
    ∀ (xs ys : List Char), (∀ c ∈ xs, c ≠ '\n') →
      splitChars (xs ++ '\n' :: ys) = xs :: splitChars ys := by
  intro xs
  induction xs with
  | nil =>
    intro ys _
    simp [splitChars]
  | cons c cs ih =>
    intro ys h
    have hc : c ≠ '\n' := h c (List.mem_cons_self c cs)
    rw [List.cons_append, splitChars, if_neg hc,
      ih ys (fun c' hc' => h c' (List.mem_cons_of_mem c hc'))]

theorem parseDiffLoop_step (lines : List String) (fuel i : Nat)
    (acc : List DiffHunk) (hi : i < lines.length)
    (hat : startsWithStr (lines.getD i "") "@@" = false) :
    parseDiffLoop lines (fuel + 1) i acc = parseDiffLoop lines fuel (i + 1) acc := by
  rw [parseDiffLoop, if_pos hi]
  by_cases h3 : startsWithStr (lines.getD i "") "---" = true
  · rw [if_pos h3]
  · rw [if_neg h3]
    by_cases h4 : startsWithStr (lines.getD i "") "+++" = true
    · rw [if_pos h4]
    · rw [if_neg h4, if_neg (by rw [hat]; exact Bool.false_ne_true)]

theorem parseDiffLoop_done (lines : List String) (fuel i : Nat)
    (acc : List DiffHunk) (hi : ¬ i < lines.length) :
    parseDiffLoop lines fuel i acc = .ok acc.reverse := by
  cases fuel with
  | zero => rfl
  | succ fuel => rw [parseDiffLoop, if_neg hi]

/-- Claim C4, amended: for any text `T` and any path without a newline,
`generateDiff T T path` returns exactly the two file-header lines with
no hunk; but `applyCodeDiff T` on that header-only diff does not
return `T` — it rejects the empty hunk set with the
"No valid hunks found in diff" failure (no `newContent`). -/
theorem claim_C4_amended (T path : String) (hpath : ∀ c ∈ path.data, c ≠ '\n') :
    generateDiff T T path = "--- a/" ++ path ++ "\n" ++ "+++ b/" ++ path ++ "\n" ∧
    applyCodeDiff T ("--- a/" ++ path ++ "\n" ++ "+++ b/" ++ path ++ "\n") =
      ⟨false, none, some "No valid hunks found in diff", 0, 0, []⟩ := by
  refine ⟨generateDiff_self T path, ?_⟩
  have hdata : ("--- a/" ++ path ++ "\n" ++ "+++ b/" ++ path ++ "\n").data =
      ("--- a/".data ++ path.data) ++ '\n' ::
        (("+++ b/".data ++ path.data) ++ '\n' :: []) := by
    simp [strData_append, List.append_assoc]
  have hnl1 : ∀ c ∈ "--- a/".data ++ path.data, c ≠ '\n' := by
    intro c hc
    rcases List.mem_append.mp hc with hl | hr
    · intro heq
      subst heq
      revert hl
      decide
    · exact hpath c hr
  have hnl2 : ∀ c ∈ "+++ b/".data ++ path.data, c ≠ '\n' := by
    intro c hc
    rcases List.mem_append.mp hc with hl | hr
    · intro heq
      subst heq
      revert hl
      decide
    · exact hpath c hr
  have hsplit : splitLines ("--- a/" ++ path ++ "\n" ++ "+++ b/" ++ path ++ "\n") =
      ["--- a/" ++ path, "+++ b/" ++ path, ""] := by
    unfold splitLines
    rw [hdata, splitChars_append_nl _ _ hnl1, splitChars_append_nl _ _ hnl2]
    simp only [List.map_cons]
    rw [strMk_append, strMk_append]
    rfl
  have hAat : startsWithStr ("--- a/" ++ path) "@@" = false := by
    unfold startsWithStr
    rw [strData_append, show ("--- a/" : String).data = '-' :: "-- a/".data from
      rfl, show ("@@" : String).data = ['@', '@'] from rfl]
    simp [isPrefixL]
  have hBat : startsWithStr ("+++ b/" ++ path) "@@" = false := by
    unfold startsWithStr
    rw [strData_append, show ("+++ b/" : String).data = '+' :: "++ b/".data from
      rfl, show ("@@" : String).data = ['@', '@'] from rfl]
    simp [isPrefixL]
  have hlen : (["--- a/" ++ path, "+++ b/" ++ path, ""] : List String).length = 2 + 1 :=
    rfl
  unfold applyCodeDiff parseDiff
  rw [hsplit]
  dsimp only
  have hEat : startsWithStr "" "@@" = false := by decide
  rw [hlen]
  rw [parseDiffLoop_step ["--- a/" ++ path, "+++ b/" ++ path, ""] 2 0 []
    (by simp) hAat]
  rw [show (2 : Nat) = 1 + 1 from rfl]
  rw [parseDiffLoop_step ["--- a/" ++ path, "+++ b/" ++ path, ""] 1 (0 + 1) []
    (by simp) hBat]
  rw [show (1 : Nat) = 0 + 1 from rfl]
  rw [parseDiffLoop_step ["--- a/" ++ path, "+++ b/" ++ path, ""] 0 (0 + 1 + 1) []
    (by simp) hEat]
  rw [parseDiffLoop_done ["--- a/" ++ path, "+++ b/" ++ path, ""] 0 (0 + 1 + 1 + 1)
    [] (by simp)]
  rfl

/-- Claim C4, witness: with `T = "a\nb"` and path `"f.txt"`, the
generated self-diff is exactly the two header lines and applying it
yields the "no valid hunks" failure. -/
theorem claim_C4_witness :
    generateDiff "a\nb" "a\nb" "f.txt" =
      "--- a/" ++ "f.txt" ++ "\n" ++ "+++ b/" ++ "f.txt" ++ "\n" ∧
    applyCodeDiff "a\nb" ("--- a/" ++ "f.txt" ++ "\n" ++ "+++ b/" ++ "f.txt" ++ "\n") =
      ⟨false, none, some "No valid hunks found in diff", 0, 0, []⟩ :=
  claim_C4_amended "a\nb" "f.txt" (by decide)

-- ===== helper lemmas: hunk body parsing (claim C6) =====

theorem classifyDiffLine_eq_spec (l : String) :
    classifyDiffLine l = classifyLineSpec l := by
  cases l with
  | mk d =>
    cases d with
    | nil => rfl
    | cons c cs =>
      by_cases h1 : c = ' '
      · subst h1
        simp [classifyDiffLine, classifyLineSpec, startsWithStr, isPrefixL,
          String.ext_iff]
      · by_cases h2 : c = '-'
        · subst h2
          simp [classifyDiffLine, classifyLineSpec, startsWithStr, isPrefixL,
            String.ext_iff]
        · by_cases h3 : c = '+'
          · subst h3
            simp [classifyDiffLine, classifyLineSpec, startsWithStr, isPrefixL,
              String.ext_iff]
          · have e1 : (' ' == c) = false := by simp [Ne.symm h1]
            have e2 : ('-' == c) = false := by simp [Ne.symm h2]
            have e3 : ('+' == c) = false := by simp [Ne.symm h3]
            simp only [classifyDiffLine, classifyLineSpec, startsWithStr,
              show (" " : String).data = [' '] from rfl,
              show ("-" : String).data = ['-'] from rfl,
              show ("+" : String).data = ['+'] from rfl,
              isPrefixL, e1, e2, e3]
            split <;> simp_all

theorem parseHunkBody_eq (lines : List String) :
    ∀ (fuel i cap : Nat) (acc : List DiffLine), lines.length ≤ fuel + i →
      parseHunkBody lines fuel i cap acc =
        (acc.reverse ++ (((lines.drop i).takeWhile
            (fun l => !isHunkBoundary l)).take (cap - acc.length)).map
            classifyDiffLine,
          i + min (cap - acc.length)
            ((lines.drop i).takeWhile (fun l => !isHunkBoundary l)).length) := by
  intro fuel
  induction fuel with
  | zero =>
    intro i cap acc hle
    have hdrop : lines.drop i = [] := List.drop_eq_nil_of_le (by omega)
    rw [hdrop]
    simp [parseHunkBody]
  | succ fuel ih =>
    intro i cap acc hle
    by_cases hi : i < lines.length
    · have hgd : lines.getD i "" = lines[i] := List.getD_eq_getElem lines "" hi
      have hdropc : lines.drop i = lines[i] :: lines.drop (i + 1) :=
        List.drop_eq_getElem_cons hi
      by_cases hcap : acc.length < cap
      · by_cases hb : isHunkBoundary (lines.getD i "") = true
        · rw [parseHunkBody, if_pos (by simp [hi, hcap]), if_pos hb]
          rw [hgd] at hb
          rw [hdropc]
          rw [List.takeWhile_cons, if_neg (by simp [hb])]
          simp
        · rw [parseHunkBody, if_pos (by simp [hi, hcap]), if_neg hb]
          rw [ih (i + 1) cap (classifyDiffLine (lines.getD i "") :: acc) (by omega)]
          rw [hgd] at hb ⊢
          rw [hdropc]
          have hbf : isHunkBoundary lines[i] = false := by
            cases hval : isHunkBoundary lines[i]
            · rfl
            · exact absurd hval hb
          have hbn : (!isHunkBoundary lines[i]) = true := by rw [hbf]; rfl
          rw [Prod.mk.injEq]
          constructor
          · rw [List.takeWhile_cons, if_pos hbn]
            have hsub : cap - acc.length = (cap - (acc.length + 1)) + 1 := by omega
            rw [hsub, List.take_succ_cons, List.map_cons, List.reverse_cons,
              List.append_assoc, List.singleton_append]
            simp only [List.length_cons]
          · rw [List.takeWhile_cons, if_pos hbn]
            simp only [List.length_cons]
            omega
      · rw [parseHunkBody, if_neg (by simp [hcap])]
        have hz : cap - acc.length = 0 := by omega
        simp [hz]
    · rw [parseHunkBody, if_neg (by simp [hi])]
      have hdrop : lines.drop i = [] := List.drop_eq_nil_of_le (by omega)
      rw [hdrop]
      simp

/-- Claim C6, amended: when the line at `startIndex` parses as a hunk
header (with counts within `MAX_HUNK_SIZE`), the body parser consumes
lines after the header until another `@@` header, a `---`/`+++`
file-header line, or end of input — but at most
`max(oldLines, newLines) + 10` of them — classifying each consumed
line by its first character (space → context keeping the rest,
minus → remove, plus → add, empty or unprefixed → verbatim context),
and returns the hunk together with the index of the first unconsumed
line. -/
theorem claim_C6_body_parsing (lines : List String) (startIndex : Nat)
    (os : Nat) (olO : Option Nat) (ns : Nat) (nlO : Option Nat)
    (hhdr : parseHunkHeader (lines.getD startIndex "").data = some (os, olO, ns, nlO))
    (hol : olO.getD 1 ≤ MAX_HUNK_SIZE) (hnl : nlO.getD 1 ≤ MAX_HUNK_SIZE) :
    parseHunk lines startIndex = .ok
      (⟨os, olO.getD 1, ns, nlO.getD 1,
        (((lines.drop (startIndex + 1)).takeWhile
            (fun l => !isHunkBoundary l)).take
          (max (olO.getD 1) (nlO.getD 1) + 10)).map classifyLineSpec⟩,
        startIndex + 1 + min (max (olO.getD 1) (nlO.getD 1) + 10)
          ((lines.drop (startIndex + 1)).takeWhile
            (fun l => !isHunkBoundary l)).length) := by
  unfold parseHunk
  dsimp only
  rw [hhdr]
  dsimp only
  rw [if_neg (by
    simp only [Bool.or_eq_true, decide_eq_true_eq, not_or]
    omega)]
  rw [parseHunkBody_eq lines lines.length (startIndex + 1)
    (max (olO.getD 1) (nlO.getD 1) + 10) [] (by omega)]
  rw [show classifyDiffLine = classifyLineSpec from funext classifyDiffLine_eq_spec]
  simp

/-- Claim C6, witness: for the input
`["@@ -1,1 +1,1 @@", " a", "+b", "@@ -9 +9 @@"]` the characterization
instantiates: the parsed body is the classified two lines and the next
index is 3 (the second header line). -/
theorem claim_C6_witness :
    parseHunk ["@@ -1,1 +1,1 @@", " a", "+b", "@@ -9 +9 @@"] 0 = .ok
      (⟨1, (some 1 : Option Nat).getD 1, 1, (some 1 : Option Nat).getD 1,
        ((((["@@ -1,1 +1,1 @@", " a", "+b", "@@ -9 +9 @@"] : List String).drop
            (0 + 1)).takeWhile (fun l => !isHunkBoundary l)).take
          (max ((some 1 : Option Nat).getD 1) ((some 1 : Option Nat).getD 1) +
            10)).map classifyLineSpec⟩,
        0 + 1 + min (max ((some 1 : Option Nat).getD 1)
            ((some 1 : Option Nat).getD 1) + 10)
          ((((["@@ -1,1 +1,1 @@", " a", "+b", "@@ -9 +9 @@"] : List String).drop
            (0 + 1)).takeWhile (fun l => !isHunkBoundary l)).length)) :=
  claim_C6_body_parsing ["@@ -1,1 +1,1 @@", " a", "+b", "@@ -9 +9 @@"] 0
    1 (some 1) 1 (some 1) (by decide) (by decide) (by decide)

-- ===== helper lemmas: safety classification counts (claim C8) =====

theorem isPrefixL_head_ne (x a : Char) (cs : List Char) (hne : x ≠ a) :
    isPrefixL [x] (a :: cs) = false := by
  simp [isPrefixL, hne]

theorem isPrefixL_cons_ex (x : Char) (xs d : List Char)
    (h : isPrefixL (x :: xs) d = true) : ∃ cs, d = x :: cs := by
  cases d with
  | nil => simp [isPrefixL] at h
  | cons a as =>
    simp only [isPrefixL, Bool.and_eq_true, beq_iff_eq] at h
    exact ⟨as, by rw [h.1]⟩

theorem sw_at_not_plus (l : String) (h : startsWithStr l "@@" = true) :
    startsWithStr l "+" = false := by
  obtain ⟨cs, hd⟩ := isPrefixL_cons_ex '@' ['@'] l.data h
  unfold startsWithStr
  rw [show ("+" : String).data = ['+'] from rfl, hd]
  exact isPrefixL_head_ne '+' '@' cs (by decide)

theorem sw_at_not_minus (l : String) (h : startsWithStr l "@@" = true) :
    startsWithStr l "-" = false := by
  obtain ⟨cs, hd⟩ := isPrefixL_cons_ex '@' ['@'] l.data h
  unfold startsWithStr
  rw [show ("-" : String).data = ['-'] from rfl, hd]
  exact isPrefixL_head_ne '-' '@' cs (by decide)

theorem sw_plus_not_minus (l : String) (h : startsWithStr l "+" = true) :
    startsWithStr l "-" = false := by
  obtain ⟨cs, hd⟩ := isPrefixL_cons_ex '+' [] l.data h
  unfold startsWithStr
  rw [show ("-" : String).data = ['-'] from rfl, hd]
  exact isPrefixL_head_ne '-' '+' cs (by decide)

theorem safetyScanStep_counts (st : SafetyState) (l : String) :
    (safetyScanStep st l).hunks = st.hunks + (if isHunkHeaderLine l then 1 else 0) ∧
    (safetyScanStep st l).added = st.added + (if isAddedLine l then 1 else 0) ∧
    (safetyScanStep st l).removed =
      st.removed + (if isRemovedLine l then 1 else 0) := by
  have hx1 := sw_at_not_plus l
  have hx2 := sw_at_not_minus l
  have hx3 := sw_plus_not_minus l
  unfold safetyScanStep isHunkHeaderLine isAddedLine isRemovedLine
  dsimp only
  refine ⟨?_, ?_, ?_⟩ <;>
    · repeat' split
      all_goals simp_all

theorem safetyScan_counts (lines : List String) :
    ∀ (st : SafetyState),
      (lines.foldl safetyScanStep st).hunks =
        st.hunks + lines.countP isHunkHeaderLine ∧
      (lines.foldl safetyScanStep st).added =
        st.added + lines.countP isAddedLine ∧
      (lines.foldl safetyScanStep st).removed =
        st.removed + lines.countP isRemovedLine := by
  induction lines with
  | nil => intro st; simp
  | cons l ls ih =>
    intro st
    obtain ⟨s1, s2, s3⟩ := safetyScanStep_counts st l
    obtain ⟨i1, i2, i3⟩ := ih (safetyScanStep st l)
    rw [List.foldl_cons]
    refine ⟨?_, ?_, ?_⟩
    · rw [i1, s1, List.countP_cons]
      by_cases h : isHunkHeaderLine l = true
      · simp [h]
        try omega
      · simp [h]
        try omega
    · rw [i2, s2, List.countP_cons]
      by_cases h : isAddedLine l = true
      · simp [h]
        try omega
      · simp [h]
        try omega
    · rw [i3, s3, List.countP_cons]
      by_cases h : isRemovedLine l = true
      · simp [h]
        try omega
      · simp [h]
        try omega

/-- Claim C8: large-diff threshold.  For any diff text whose lines
contain more than 5 hunk headers, or more than 50 added-plus-removed
lines (lines starting with `+`/`-` but not `+++`/`---`), the safety
classifier reports a level other than `safe` (i.e. `caution` or
`review`) and its issues contain the large-diff finding. -/
theorem claim_C8_large_diff (d : String)
    (hbig : 5 < (splitLines d).countP isHunkHeaderLine ∨
      50 < (splitLines d).countP isAddedLine +
        (splitLines d).countP isRemovedLine) :
    (validateDiffSafety d).level ≠ SafetyLevel.safe ∧
    "Large diff - consider manual review" ∈ (validateDiffSafety d).issues := by
  obtain ⟨c1, c2, c3⟩ := safetyScan_counts (splitLines d) ⟨0, 0, 0, .safe, []⟩
  have hcond : ((((splitLines d).foldl safetyScanStep
      ⟨0, 0, 0, SafetyLevel.safe, []⟩).hunks > 5) ∨
      (((splitLines d).foldl safetyScanStep
        ⟨0, 0, 0, SafetyLevel.safe, []⟩).added +
        ((splitLines d).foldl safetyScanStep
          ⟨0, 0, 0, SafetyLevel.safe, []⟩).removed > 50)) := by
    rw [c1, c2, c3]
    simpa using hbig
  unfold validateDiffSafety safetyCore
  dsimp only
  rw [if_pos (by
    simp only [Bool.or_eq_true, decide_eq_true_eq]
    exact hcond)]
  constructor
  · cases hlv : ((splitLines d).foldl safetyScanStep
      ⟨0, 0, 0, SafetyLevel.safe, []⟩).level <;> simp [hlv]
  · simp

/-- Claim C8, witness: a diff of 8 hunk headers and 80 changed lines
(40 added, 40 removed) is classified `caution` or stricter, with the
large-diff issue present. -/
theorem claim_C8_witness :
    (validateDiffSafety (joinLines (List.replicate 8 "@@ -1 +1 @@" ++
      List.replicate 40 "+x" ++ List.replicate 40 "-y"))).level ≠
      SafetyLevel.safe ∧
    "Large diff - consider manual review" ∈
      (validateDiffSafety (joinLines (List.replicate 8 "@@ -1 +1 @@" ++
        List.replicate 40 "+x" ++ List.replicate 40 "-y"))).issues :=
  claim_C8_large_diff
    (joinLines (List.replicate 8 "@@ -1 +1 @@" ++ List.replicate 40 "+x" ++
      List.replicate 40 "-y"))
    (Or.inl (by decide))
